import Mathlib

/-
Verification development for the hyperliquid long/short trading bot.

The Python sources are shallowly embedded below.  Machine floats are
modelled by exact rationals (ℚ); Python's banker's rounding (`round`)
is modelled by `rhe` (round half to even); fallible external reads are
modelled by `Option`; the exchange gateway is modelled by an oracle
record (`Venue`) whose function fields give the observable outcome of
every request, and the destructive requests a routine issues are
returned as an explicit action trace.

Naming follows the sources.  Two renamings were forced by external
constraints on identifiers: the dataclass fields `position_ratio` /
`current_ratio` appear here as `ratio_position` / `ratio_current`, and
the locals `btc_ratio` / `shorts_ratio` of `_restore_positions` appear
as `ratio_btc` / `ratio_shorts`.
-/

set_option maxRecDepth 4000

/-- Round half to even, the rounding mode of Python's builtin `round`. -/
def rhe (q : ℚ) : ℤ :=
  if Int.fract q < 1/2 then ⌊q⌋
  else if 1/2 < Int.fract q then ⌊q⌋ + 1
  else if ⌊q⌋ % 2 = 0 then ⌊q⌋ else ⌊q⌋ + 1

/-- Python's `round(x, d)`: round half to even at `d` decimal digits. -/
def roundDec (x : ℚ) (d : ℤ) : ℚ :=
  (rhe (x * (10:ℚ)^d) : ℚ) / (10:ℚ)^d

/-- Python's `dict.get(k)` on an association list: first binding wins. -/
def dictGet {α : Type} : List (String × α) → String → Option α
  | [], _ => none
  | p :: rest, k => if p.1 == k then some p.2 else dictGet rest k

/-- Python's `dict.get(k, default)` on an association list. -/
def lookupD (l : List (String × ℚ)) (k : String) (d : ℚ) : ℚ :=
  (dictGet l k).getD d

/-- Python's `dict[k] = v`: replace the first binding of `k`, else append. -/
def upsert : List (String × Bool) → String → Bool → List (String × Bool)
  | [], k, v => [(k, v)]
  | p :: rest, k, v => if p.1 = k then (k, v) :: rest else p :: upsert rest k v

/-- `strategy.py`: dataclass `RebalanceDecision`.
(`ratio_current` renders the source field `current_ratio`.) -/
structure RebalanceDecision where
  should_rebalance : Bool
  btc_target_usd : ℚ
  shorts_target_usd : ℚ
  btc_current_usd : ℚ
  shorts_current_usd : ℚ
  ratio_current : ℚ
  deviation_percent : ℚ
  reason : String
deriving DecidableEq

/-- `strategy.py`: dataclass `PortfolioState`.
(`ratio_position` renders the source field `position_ratio`.) -/
structure PortfolioState where
  nav : ℚ
  btc_position : ℚ
  shorts_positions : List (String × ℚ)
  btc_value_usd : ℚ
  shorts_value_usd : ℚ
  btc_margin : ℚ
  shorts_margin : ℚ
  ratio_position : ℚ
  margin_usage_percent : ℚ
  available_balance : ℚ
deriving DecidableEq

/-- `strategy.py`: the strategy parameters held by `LongShortStrategy.__init__`
(the injected providers are modelled separately as explicit arguments). -/
structure LongShortStrategy where
  ratio_target : ℚ
  reserve_percent : ℚ
  rebalance_threshold : ℚ
  shorts_symbols : List String
deriving DecidableEq

/-- `strategy.py` lines 133-167: `LongShortStrategy.calculate_rebalance_decision`.
The numeric interpolation inside the `reason` f-strings is elided; the
branch structure of `reason` is kept. -/
def LongShortStrategy.calculate_rebalance_decision
    (self : LongShortStrategy) (pf : PortfolioState) : RebalanceDecision :=
  let available_for_trading := pf.nav * (1 - self.reserve_percent)
  let total_target := available_for_trading
  let btc_target_usd := total_target * self.ratio_target / (self.ratio_target + 1)
  let shorts_target_usd := total_target * 1 / (self.ratio_target + 1)
  let deviation_percent :=
    if 0 < self.ratio_target then
      |pf.ratio_position - self.ratio_target| / self.ratio_target
    else 0
  let should_rebalance := decide (self.rebalance_threshold < deviation_percent)
  let reason :=
    if should_rebalance then
      if self.ratio_target < pf.ratio_position then ("Ratio too high")
      else ("Ratio too low")
    else ("")
  { should_rebalance := should_rebalance
    btc_target_usd := btc_target_usd
    shorts_target_usd := shorts_target_usd
    btc_current_usd := pf.btc_value_usd
    shorts_current_usd := pf.shorts_value_usd
    ratio_current := pf.ratio_position
    deviation_percent := deviation_percent
    reason := reason }

/-- A market order submitted to the order executor:
arguments of `order_executor.place_market_order(symbol, is_buy, size, price)`. -/
structure Order where
  symbol : String
  is_buy : Bool
  size : ℚ
  price : ℚ
deriving DecidableEq

/-- `strategy.py` lines 214-259: the per-hedge-symbol loop inside
`execute_rebalance`.  Returns the accumulated success flag and the list of
orders submitted; `orderSuccess` is the oracle for each order's outcome. -/
def shorts_loop (current_shorts : List (String × ℚ)) (prices : List (String × ℚ))
    (target_shorts_per_symbol : ℚ) (orderSuccess : Order → Bool) :
    List String → Bool × List Order
  | [] => (true, [])
  | symbol :: rest =>
    let acc := shorts_loop current_shorts prices target_shorts_per_symbol orderSuccess rest
    let symbol_price := lookupD prices symbol 0
    if symbol_price = 0 then acc
    else
      let current_position_usd := |lookupD current_shorts symbol 0| * symbol_price
      let position_diff_usd := target_shorts_per_symbol - current_position_usd
      if 2 < |position_diff_usd| then
        let order_size := |position_diff_usd| / symbol_price
        let is_buy := !decide (0 < position_diff_usd)
        let o : Order := ⟨symbol, is_buy, order_size, symbol_price⟩
        (orderSuccess o && acc.1, o :: acc.2)
      else acc

/-- `strategy.py` lines 169-267: `LongShortStrategy.execute_rebalance`.
Returns the overall success flag together with the orders submitted. -/
def LongShortStrategy.execute_rebalance (self : LongShortStrategy)
    (decision : RebalanceDecision) (pf : PortfolioState)
    (prices : List (String × ℚ)) (orderSuccess : Order → Bool) : Bool × List Order :=
  if ¬ decision.should_rebalance then (true, [])
  else
    let btc_diff_usd := decision.btc_target_usd - decision.btc_current_usd
    let btcAcc : Bool × List Order :=
      if 5 < |btc_diff_usd| then
        let btc_price := lookupD prices ("BTC") 0
        if btc_price ≤ 0 then (false, [])
        else
          let btc_size_diff := btc_diff_usd / btc_price
          let o : Order := ⟨("BTC"), decide (0 < btc_size_diff), |btc_size_diff|, btc_price⟩
          (orderSuccess o, [o])
      else (true, [])
    let shorts_diff_usd := decision.shorts_target_usd - decision.shorts_current_usd
    let shortsAcc : Bool × List Order :=
      if 5 < |shorts_diff_usd| then
        let target_shorts_per_symbol :=
          decision.shorts_target_usd / (self.shorts_symbols.length : ℚ)
        shorts_loop pf.shorts_positions prices target_shorts_per_symbol orderSuccess
          self.shorts_symbols
      else (true, [])
    (btcAcc.1 && shortsAcc.1, btcAcc.2 ++ shortsAcc.2)

/-- Exchange metadata for one symbol as consulted by `validate_order_size`
(`order_executor.py` lines 136-142): optional `minSz`, `szStep`,
`szDecimals` entries of the `asset_meta` dictionary. -/
structure AssetParams where
  minSz : Option ℚ
  szStep : Option ℚ
  szDecimals : Option ℤ
deriving DecidableEq

/-- `int(asset_params.get('szDecimals', 6))`. -/
def szDecimalsOf (p : AssetParams) : ℤ := p.szDecimals.getD 6

/-- `float(asset_params.get('minSz', 10 ** (-szDecimals)))`. -/
def minSzOf (p : AssetParams) : ℚ := p.minSz.getD ((10:ℚ) ^ (-(szDecimalsOf p)))

/-- `float(asset_params.get('szStep', 10 ** (-szDecimals)))`. -/
def szStepOf (p : AssetParams) : ℚ := p.szStep.getD ((10:ℚ) ^ (-(szDecimalsOf p)))

/-- `order_executor.py` lines 133-154 / `risk_manager.py` lines 497-518:
`validate_order_size` (both copies implement the same algorithm).
`round(round(size / sz_step) * sz_step, sz_decimals)`, then the `minSz`
check.  A zero step makes Python's division raise; the exception handler
returns `(False, 0.0, "Validation error: ...")`.  The interpolated parts
of the message strings are elided. -/
def validate_order_size (asset_meta : List (String × AssetParams))
    (symbol : String) (size : ℚ) : Bool × ℚ × String :=
  match dictGet asset_meta symbol with
  | none => (false, 0, ("No meta info"))
  | some asset_params =>
    let min_sz := minSzOf asset_params
    let sz_step := szStepOf asset_params
    let sz_decimals := szDecimalsOf asset_params
    if sz_step = 0 then (false, 0, ("Validation error"))
    else
      let rounded_size := roundDec ((rhe (size / sz_step) : ℚ) * sz_step) sz_decimals
      if rounded_size < min_sz then (false, rounded_size, ("Size below minSz"))
      else (true, rounded_size, (""))

/-- One entry of the `positions` mapping of the saved portfolio state
(`risk_manager.py` lines 203-207). -/
structure SavedPosition where
  size : ℚ
  value : ℚ
  price : ℚ
deriving DecidableEq

/-- `risk_manager.py` lines 175-219: the dictionary built by
`_save_portfolio_state` (the `LeverageSnapshot` of the spec). -/
structure SavedState where
  nav : ℚ
  positions : List (String × SavedPosition)
  total_btc_value : ℚ
  total_shorts_value : ℚ
deriving DecidableEq

/-- A call of `_open_position(symbol, target_value, leverage, is_buy)`
(`risk_manager.py` line 351). -/
structure OpenIntent where
  symbol : String
  target_value : ℚ
  leverage : ℤ
  is_buy : Bool
deriving DecidableEq

/-- A destructive request issued to the exchange during the
leverage-compliance protocol. -/
inductive VenueAction where
  | closePosition (coin : String)
  | setLeverage (symbol : String) (leverage : ℤ)
  | openPosition (symbol : String) (target_value : ℚ) (leverage : ℤ) (is_buy : Bool)
deriving DecidableEq

/-- Oracle for the exchange as seen by `HyperliquidRiskManager`: the
outcome of every read and of every request it may issue.
`user_leverages` is the mapping parsed by `get_current_leverages`
(`none`: the read raised, the handler returns `{}`); `saved_state` is
the result of `_save_portfolio_state` (`none`: the read raised, the
handler returns the empty dict); `open_positions` is the position list
read by `_close_all_positions`; the remaining fields give the success
of close, leverage-update and `_open_position` requests. -/
structure Venue where
  user_leverages : Option (List (String × ℚ))
  saved_state : Option SavedState
  open_positions : List (String × ℚ)
  close_ok : String → Bool
  update_leverage_ok : String → ℤ → Bool
  open_result : String → ℚ → Bool

/-- `risk_manager.py` lines 57-90: `get_current_leverages` (on failure the
exception handler returns the empty mapping). -/
def get_current_leverages (v : Venue) : List (String × ℚ) :=
  v.user_leverages.getD []

/-- `risk_manager.py` lines 92-122: `check_leverage_compliance`.  The
result mirrors the `compliance` dict: insertion-ordered, `BTC` first,
then each hedge symbol via dict assignment (`upsert`). -/
def check_leverage_compliance (v : Venue) (required_btc required_shorts : ℤ)
    (shorts : List String) : List (String × Bool) :=
  let current_leverages := get_current_leverages v
  let btc_leverage := lookupD current_leverages ("BTC") 1
  let base := [(("BTC"), decide (|btc_leverage - (required_btc : ℚ)| < 1/100))]
  shorts.foldl
    (fun compliance symbol =>
      let symbol_leverage := lookupD current_leverages symbol 1
      upsert compliance symbol
        (decide (|symbol_leverage - (required_shorts : ℚ)| < 1/100)))
    base

/-- `risk_manager.py` lines 221-271: `_close_all_positions`.  Returns the
success flag and the close requests issued. -/
def close_all_positions (v : Venue) : Bool × List VenueAction :=
  let positions_to_close :=
    v.open_positions.filter (fun p => p.1 ≠ "" && decide (1/100000000 < |p.2|))
  if positions_to_close = [] then (true, [])
  else
    (positions_to_close.all (fun p => v.close_ok p.1),
     positions_to_close.map (fun p => VenueAction.closePosition p.1))

/-- `risk_manager.py` lines 273-294: `_set_all_leverages`. -/
def set_all_leverages (v : Venue) (required_btc required_shorts : ℤ)
    (shorts : List String) : Bool × List VenueAction :=
  (v.update_leverage_ok ("BTC") required_btc
     && shorts.all (fun symbol => v.update_leverage_ok symbol required_shorts),
   VenueAction.setLeverage ("BTC") required_btc
     :: shorts.map (fun symbol => VenueAction.setLeverage symbol required_shorts))

/-- `risk_manager.py` lines 389-435: `_create_initial_positions`.  Returns
the success flag and the `_open_position` calls it makes. -/
def create_initial_positions (available_for_trading : ℚ)
    (btc_leverage shorts_leverage : ℤ) (shorts_symbols : List String)
    (open_result : String → ℚ → Bool) : Bool × List OpenIntent :=
  let target_btc_margin := available_for_trading * (2/3)
  let target_shorts_margin := available_for_trading * (1/3)
  let btcAcc : Bool × List OpenIntent :=
    if 5 < target_btc_margin then
      let btc_position_value := target_btc_margin * (btc_leverage : ℚ)
      (open_result ("BTC") btc_position_value,
       [⟨("BTC"), btc_position_value, btc_leverage, true⟩])
    else (true, [])
  let shortsAcc : Bool × List OpenIntent :=
    if 5 < target_shorts_margin then
      let shorts_margin_per_symbol := target_shorts_margin / (shorts_symbols.length : ℚ)
      let shorts_position_value_per_symbol :=
        shorts_margin_per_symbol * (shorts_leverage : ℚ)
      (shorts_symbols.all (fun symbol => open_result symbol shorts_position_value_per_symbol),
       shorts_symbols.map (fun symbol =>
         ⟨symbol, shorts_position_value_per_symbol, shorts_leverage, false⟩))
    else (true, [])
  (btcAcc.1 && shortsAcc.1, btcAcc.2 ++ shortsAcc.2)

/-- `risk_manager.py` lines 296-349: `_restore_positions`.  Returns the
success flag and the `_open_position` calls it makes.  (`ratio_btc` /
`ratio_shorts` render the source locals `btc_ratio` / `shorts_ratio`.) -/
def restore_positions (saved_state : SavedState)
    (btc_leverage shorts_leverage : ℤ)
    (open_result : String → ℚ → Bool) : Bool × List OpenIntent :=
  let nav := saved_state.nav
  let reserve_percent : ℚ := 5/100
  let available_for_trading := nav * (1 - reserve_percent)
  if saved_state.positions = [] ∨ saved_state.total_btc_value = 0 then
    create_initial_positions available_for_trading btc_leverage shorts_leverage
      (["ZK", "STRK"]) open_result
  else
    let total_btc_value := saved_state.total_btc_value
    let total_shorts_value := saved_state.total_shorts_value
    let total_value := total_btc_value + total_shorts_value
    if total_value = 0 then
      create_initial_positions available_for_trading btc_leverage shorts_leverage
        (["ZK", "STRK"]) open_result
    else
      let ratio_btc := total_btc_value / total_value
      let ratio_shorts := total_shorts_value / total_value
      let target_btc_value := available_for_trading * ratio_btc
      let target_shorts_value := available_for_trading * ratio_shorts
      let btcAcc : Bool × List OpenIntent :=
        if 5 < target_btc_value then
          (open_result ("BTC") target_btc_value,
           [⟨("BTC"), target_btc_value, btc_leverage, true⟩])
        else (true, [])
      let shorts_positions := saved_state.positions.filter (fun p => p.1 ≠ "BTC")
      let shortsAcc : Bool × List OpenIntent :=
        if shorts_positions ≠ [] ∧ 5 < target_shorts_value then
          let shorts_per_symbol := target_shorts_value / (shorts_positions.length : ℚ)
          (shorts_positions.all (fun p => open_result p.1 shorts_per_symbol),
           shorts_positions.map (fun p => ⟨p.1, shorts_per_symbol, shorts_leverage, false⟩))
        else (true, [])
      (btcAcc.1 && shortsAcc.1, btcAcc.2 ++ shortsAcc.2)

/-- `risk_manager.py` lines 124-173: `force_leverage_compliance`.  Returns
the reported success and the trace of destructive requests issued. -/
def force_leverage_compliance (v : Venue) (required_btc required_shorts : ℤ)
    (shorts : List String) : Bool × List VenueAction :=
  let compliance := check_leverage_compliance v required_btc required_shorts shorts
  let non_compliant := (compliance.filter (fun p => p.2 = false)).map Prod.fst
  if non_compliant = [] then (true, [])
  else
    match v.saved_state with
    | none => (false, [])
    | some current_state =>
      let closeAcc := close_all_positions v
      if ¬ closeAcc.1 then (false, closeAcc.2)
      else
        let levAcc := set_all_leverages v required_btc required_shorts shorts
        if ¬ levAcc.1 then (false, closeAcc.2 ++ levAcc.2)
        else
          let resAcc :=
            restore_positions current_state required_btc required_shorts v.open_result
          (resAcc.1,
           closeAcc.2 ++ levAcc.2
             ++ resAcc.2.map (fun i =>
                  VenueAction.openPosition i.symbol i.target_value i.leverage i.is_buy))

/-- Stated from the spec's words, for comparison with `restore_positions`:
the reopen step targets core and hedge values in the snapshot's
proportions, applied to the post-reserve tradable NAV, and splits the
hedge allocation evenly across the hedge symbols open in the snapshot. -/
def ProportionalRestoreTargets (saved : SavedState) (intents : List OpenIntent) : Prop :=
  ∀ i ∈ intents,
    (i.symbol = "BTC" →
      i.target_value = saved.nav * (1 - 5/100)
        * (saved.total_btc_value / (saved.total_btc_value + saved.total_shorts_value)))
    ∧ (i.symbol ≠ "BTC" →
        i.symbol ∈ (saved.positions.filter (fun p => p.1 ≠ "BTC")).map Prod.fst
        ∧ i.target_value = saved.nav * (1 - 5/100)
            * (saved.total_shorts_value / (saved.total_btc_value + saved.total_shorts_value))
            / (((saved.positions.filter (fun p => p.1 ≠ "BTC")).map Prod.fst).length : ℚ))

/-- Test whether an action is a reopen order for the given symbol. -/
def opensSymbol (s : String) : VenueAction → Bool
  | .openPosition symbol _ _ _ => symbol == s
  | _ => false

/-- Snapshot of the spec's proportionality example: core value 600, hedge
value 300, nav chosen so that the post-reserve tradable NAV is 450. -/
def c2saved : SavedState :=
  { nav := 9000/19
    positions := [(("BTC"), ⟨1/100, 600, 60000⟩), (("ZK"), ⟨-10000, 300, 3/100⟩)]
    total_btc_value := 600
    total_shorts_value := 300 }

/-- Snapshot with nonzero total value but zero core value: only a ZK hedge
position worth 300, same nav (tradable NAV 450). -/
def c2savedZeroCore : SavedState :=
  { nav := 9000/19
    positions := [(("ZK"), ⟨-10000, 300, 3/100⟩)]
    total_btc_value := 0
    total_shorts_value := 300 }

/-- A snapshot of a flat account: no positions, no value, nav 1000. -/
def flatSaved : SavedState :=
  { nav := 1000, positions := [], total_btc_value := 0, total_shorts_value := 0 }

/-- A flat, fully coöperative venue whose snapshot is `flatSaved`. -/
def flatVenue : Venue :=
  { user_leverages := some []
    saved_state := some flatSaved
    open_positions := []
    close_ok := fun _ => true
    update_leverage_ok := fun _ _ => true
    open_result := fun _ _ => true }

/-- A venue whose portfolio-state read fails (`_save_portfolio_state`
raises, returning the empty dict) while everything else would succeed. -/
def c3venue : Venue :=
  { user_leverages := some []
    saved_state := none
    open_positions := [(("BTC"), 1/100), (("ZK"), -10000)]
    close_ok := fun _ => true
    update_leverage_ok := fun _ _ => true
    open_result := fun _ _ => true }

/-- Concrete strategy parameters used by the witnesses: target 2.0,
reserve 5%, threshold 10%, hedge symbols ZK and STRK. -/
def cfgW : LongShortStrategy :=
  { ratio_target := 2
    reserve_percent := 1/20
    rebalance_threshold := 1/10
    shorts_symbols := [("ZK"), ("STRK")] }

/-- Concrete portfolio used by the witnesses: nav chosen so that the hedge
target is exactly $4 ($2 per hedge symbol); ZK flat, STRK short 12 units. -/
def pfW : PortfolioState :=
  { nav := 240/19
    btc_position := 1/10000
    shorts_positions := [(("ZK"), 0), (("STRK"), -12)]
    btc_value_usd := 8
    shorts_value_usd := 12
    btc_margin := 999
    shorts_margin := 1
    ratio_position := 999
    margin_usage_percent := 0
    available_balance := 0 }

/-- Concrete price map used by the witnesses. -/
def pricesW : List (String × ℚ) := [(("BTC"), 50000), (("ZK"), 1), (("STRK"), 1)]

/-- Asset metadata used by the order-sizing witnesses: minSz 0.001,
szStep 0.001, szDecimals 3. -/
def metaW : List (String × AssetParams) :=
  [(("BTC"), ⟨some (1/1000), some (1/1000), some 3⟩)]

/-- C1: for every portfolio state and configuration, the decision returned
by `calculate_rebalance_decision` has, for `ratio_target > 0`,
`deviation_percent = |position_ratio - ratio_target| / ratio_target`;
`should_rebalance` holds iff `deviation_percent > rebalance_threshold`
(so at `deviation_percent = rebalance_threshold` it is false); and for
`ratio_target ≤ 0` the deviation is 0, hence (under the configuration
constraint `rebalance_threshold ≥ 0`) `should_rebalance` is false. -/
theorem c1_rebalance_flag_spec (self : LongShortStrategy) (pf : PortfolioState) :
    (0 < self.ratio_target →
      (self.calculate_rebalance_decision pf).deviation_percent
        = |pf.ratio_position - self.ratio_target| / self.ratio_target)
    ∧ ((self.calculate_rebalance_decision pf).should_rebalance = true
        ↔ self.rebalance_threshold < (self.calculate_rebalance_decision pf).deviation_percent)
    ∧ ((self.calculate_rebalance_decision pf).deviation_percent = self.rebalance_threshold
        → (self.calculate_rebalance_decision pf).should_rebalance = false)
    ∧ (self.ratio_target ≤ 0 → 0 ≤ self.rebalance_threshold →
        (self.calculate_rebalance_decision pf).deviation_percent = 0
        ∧ (self.calculate_rebalance_decision pf).should_rebalance = false) := by
  simp only [LongShortStrategy.calculate_rebalance_decision]
  refine ⟨fun h => ?_, ?_, fun h => ?_, fun h h' => ?_⟩
  · rw [if_pos h]
  · simp
  · simp only [decide_eq_false_iff_not, not_lt]
    exact le_of_eq h
  · rw [if_neg (not_lt.mpr h)]
    refine ⟨rfl, ?_⟩
    simp only [decide_eq_false_iff_not, not_lt]
    exact h'

/-- C1 witness: a concrete portfolio (ratio 999 against target 2) where
the deviation is (999-2)/2 and rebalancing is flagged. -/
theorem c1_witness :
    (cfgW.calculate_rebalance_decision pfW).deviation_percent = 997/2
    ∧ (cfgW.calculate_rebalance_decision pfW).should_rebalance = true := by
  have h := c1_rebalance_flag_spec cfgW pfW
  constructor
  · have h1 := h.1 (by norm_num [cfgW])
    rw [h1]
    norm_num [cfgW, pfW]
  · rw [h.2.1]
    have h1 := h.1 (by norm_num [cfgW])
    rw [h1]
    norm_num [cfgW, pfW]

/-- C4: for nav ≥ 0 and ratio_target > 0 the computed targets satisfy
`btc_target + shorts_target = nav * (1 - reserve_percent)` with
`btc_target : shorts_target = ratio_target : 1`; for ratio_target = 2
the core receives 2/3 and the hedge 1/3 of the tradable amount. -/
theorem c4_targets_partition (self : LongShortStrategy) (pf : PortfolioState)
    (hn : 0 ≤ pf.nav) (hr : 0 < self.ratio_target) :
    (self.calculate_rebalance_decision pf).btc_target_usd
        + (self.calculate_rebalance_decision pf).shorts_target_usd
      = pf.nav * (1 - self.reserve_percent)
    ∧ (self.calculate_rebalance_decision pf).btc_target_usd
      = self.ratio_target * (self.calculate_rebalance_decision pf).shorts_target_usd
    ∧ (self.ratio_target = 2 →
        (self.calculate_rebalance_decision pf).btc_target_usd
          = pf.nav * (1 - self.reserve_percent) * (2/3)
        ∧ (self.calculate_rebalance_decision pf).shorts_target_usd
          = pf.nav * (1 - self.reserve_percent) * (1/3)) := by
  have hr1 : self.ratio_target + 1 ≠ 0 := by positivity
  simp only [LongShortStrategy.calculate_rebalance_decision]
  refine ⟨?_, ?_, fun h2 => ⟨?_, ?_⟩⟩
  · field_simp
    ring
  · field_simp
    ring
  · rw [h2]; ring
  · rw [h2]; ring

/-- C4 witness: nav 240/19, reserve 5%, ratio 2 give targets 8 and 4
summing to the tradable 12, in ratio 2:1. -/
theorem c4_witness :
    (cfgW.calculate_rebalance_decision pfW).btc_target_usd
        + (cfgW.calculate_rebalance_decision pfW).shorts_target_usd
      = pfW.nav * (1 - cfgW.reserve_percent)
    ∧ (cfgW.calculate_rebalance_decision pfW).btc_target_usd
      = cfgW.ratio_target * (cfgW.calculate_rebalance_decision pfW).shorts_target_usd :=
  ⟨(c4_targets_partition cfgW pfW (by norm_num [pfW]) (by norm_num [cfgW])).1,
   (c4_targets_partition cfgW pfW (by norm_num [pfW]) (by norm_num [cfgW])).2.1⟩

theorem shorts_loop_cons (cs ps : List (String × ℚ)) (t : ℚ) (r : Order → Bool)
    (s : String) (rest : List String) :
    shorts_loop cs ps t r (s :: rest) =
      (if lookupD ps s 0 = 0 then shorts_loop cs ps t r rest
       else if 2 < |t - |lookupD cs s 0| * lookupD ps s 0| then
         (r ⟨s, !decide (0 < t - |lookupD cs s 0| * lookupD ps s 0),
             |t - |lookupD cs s 0| * lookupD ps s 0| / lookupD ps s 0, lookupD ps s 0⟩
            && (shorts_loop cs ps t r rest).1,
          ⟨s, !decide (0 < t - |lookupD cs s 0| * lookupD ps s 0),
             |t - |lookupD cs s 0| * lookupD ps s 0| / lookupD ps s 0, lookupD ps s 0⟩
            :: (shorts_loop cs ps t r rest).2)
       else shorts_loop cs ps t r rest) := rfl

theorem shorts_loop_snd_indep (cs ps : List (String × ℚ)) (t : ℚ)
    (r1 r2 : Order → Bool) (syms : List String) :
    (shorts_loop cs ps t r1 syms).2 = (shorts_loop cs ps t r2 syms).2 := by
  induction syms with
  | nil => rfl
  | cons s rest ih =>
    rw [shorts_loop_cons, shorts_loop_cons]
    by_cases h1 : lookupD ps s 0 = 0
    · rw [if_pos h1, if_pos h1]; exact ih
    · by_cases h2 : 2 < |t - |lookupD cs s 0| * lookupD ps s 0|
      · rw [if_neg h1, if_neg h1, if_pos h2, if_pos h2]
        simpa using ih
      · rw [if_neg h1, if_neg h1, if_neg h2, if_neg h2]; exact ih

theorem shorts_loop_mem_false (cs ps : List (String × ℚ)) (t : ℚ)
    (r : Order → Bool) (syms : List String) (o : Order)
    (ho : o ∈ (shorts_loop cs ps t r syms).2) (hf : r o = false) :
    (shorts_loop cs ps t r syms).1 = false := by
  induction syms with
  | nil => simp [shorts_loop] at ho
  | cons s rest ih =>
    rw [shorts_loop_cons] at ho ⊢
    by_cases h1 : lookupD ps s 0 = 0
    · rw [if_pos h1] at ho ⊢; exact ih ho
    · by_cases h2 : 2 < |t - |lookupD cs s 0| * lookupD ps s 0|
      · rw [if_neg h1, if_pos h2] at ho ⊢
        simp only [List.mem_cons] at ho
        rcases ho with rfl | ho
        · rw [hf]; rfl
        · rw [ih ho, Bool.and_false]
      · rw [if_neg h1, if_neg h2] at ho ⊢; exact ih ho

theorem shorts_loop_filter_not_mem (cs ps : List (String × ℚ)) (t : ℚ)
    (r : Order → Bool) (sym : String) (syms : List String) (h : sym ∉ syms) :
    ((shorts_loop cs ps t r syms).2.filter (fun o => o.symbol == sym)) = [] := by
  induction syms with
  | nil => rfl
  | cons s rest ih =>
    have hs : s ≠ sym := fun hc => h (hc ▸ List.mem_cons_self s rest)
    have hrest : sym ∉ rest := fun hc => h (List.mem_cons_of_mem s hc)
    rw [shorts_loop_cons]
    by_cases h1 : lookupD ps s 0 = 0
    · rw [if_pos h1]; exact ih hrest
    · by_cases h2 : 2 < |t - |lookupD cs s 0| * lookupD ps s 0|
      · rw [if_neg h1, if_pos h2]
        simp only [List.filter_cons]
        rw [if_neg (by simp [hs])]
        exact ih hrest
      · rw [if_neg h1, if_neg h2]; exact ih hrest

theorem shorts_loop_filter_mem (cs ps : List (String × ℚ)) (t : ℚ)
    (r : Order → Bool) (sym : String) (syms : List String)
    (hmem : sym ∈ syms) (hnd : syms.Nodup) :
    ((shorts_loop cs ps t r syms).2.filter (fun o => o.symbol == sym)) =
      (if lookupD ps sym 0 = 0 then []
       else
        if 2 < |t - |lookupD cs sym 0| * lookupD ps sym 0| then
          [⟨sym, !decide (0 < t - |lookupD cs sym 0| * lookupD ps sym 0),
            |t - |lookupD cs sym 0| * lookupD ps sym 0| / lookupD ps sym 0,
            lookupD ps sym 0⟩]
        else []) := by
  induction syms with
  | nil => simp at hmem
  | cons s rest ih =>
    rcases List.mem_cons.mp hmem with h | h
    · subst h
      have hrest : sym ∉ rest := (List.nodup_cons.mp hnd).1
      rw [shorts_loop_cons]
      by_cases h1 : lookupD ps sym 0 = 0
      · rw [if_pos h1, if_pos h1]
        exact shorts_loop_filter_not_mem cs ps t r sym rest hrest
      · by_cases h2 : 2 < |t - |lookupD cs sym 0| * lookupD ps sym 0|
        · rw [if_neg h1, if_pos h2, if_neg h1, if_pos h2]
          simp only [List.filter_cons]
          rw [if_pos (by simp)]
          rw [shorts_loop_filter_not_mem cs ps t r sym rest hrest]
        · rw [if_neg h1, if_neg h2, if_neg h1, if_neg h2]
          exact shorts_loop_filter_not_mem cs ps t r sym rest hrest
    · have hs : s ≠ sym := by
        intro hc
        subst hc
        exact (List.nodup_cons.mp hnd).1 h
      have ih' := ih h (List.nodup_cons.mp hnd).2
      rw [shorts_loop_cons]
      by_cases h1 : lookupD ps s 0 = 0
      · rw [if_pos h1]; exact ih'
      · by_cases h2 : 2 < |t - |lookupD cs s 0| * lookupD ps s 0|
        · rw [if_neg h1, if_pos h2]
          simp only [List.filter_cons]
          rw [if_neg (by simp [hs])]
          exact ih'
        · rw [if_neg h1, if_neg h2]; exact ih'


theorem execute_rebalance_of_should (self : LongShortStrategy)
    (decision : RebalanceDecision) (pf : PortfolioState)
    (prices : List (String × ℚ)) (r : Order → Bool)
    (hsb : decision.should_rebalance = true) :
    self.execute_rebalance decision pf prices r =
      ((if 5 < |decision.btc_target_usd - decision.btc_current_usd| then
          (if lookupD prices ("BTC") 0 ≤ 0 then (false, ([] : List Order))
           else
            (r ⟨("BTC"),
                decide (0 < (decision.btc_target_usd - decision.btc_current_usd)
                  / lookupD prices ("BTC") 0),
                |(decision.btc_target_usd - decision.btc_current_usd)
                  / lookupD prices ("BTC") 0|, lookupD prices ("BTC") 0⟩,
             [⟨("BTC"),
                decide (0 < (decision.btc_target_usd - decision.btc_current_usd)
                  / lookupD prices ("BTC") 0),
                |(decision.btc_target_usd - decision.btc_current_usd)
                  / lookupD prices ("BTC") 0|, lookupD prices ("BTC") 0⟩]))
        else (true, [])).1
       && (if 5 < |decision.shorts_target_usd - decision.shorts_current_usd| then
            shorts_loop pf.shorts_positions prices
              (decision.shorts_target_usd / (self.shorts_symbols.length : ℚ)) r
              self.shorts_symbols
          else (true, [])).1,
       (if 5 < |decision.btc_target_usd - decision.btc_current_usd| then
          (if lookupD prices ("BTC") 0 ≤ 0 then (false, ([] : List Order))
           else
            (r ⟨("BTC"),
                decide (0 < (decision.btc_target_usd - decision.btc_current_usd)
                  / lookupD prices ("BTC") 0),
                |(decision.btc_target_usd - decision.btc_current_usd)
                  / lookupD prices ("BTC") 0|, lookupD prices ("BTC") 0⟩,
             [⟨("BTC"),
                decide (0 < (decision.btc_target_usd - decision.btc_current_usd)
                  / lookupD prices ("BTC") 0),
                |(decision.btc_target_usd - decision.btc_current_usd)
                  / lookupD prices ("BTC") 0|, lookupD prices ("BTC") 0⟩]))
        else (true, [])).2
       ++ (if 5 < |decision.shorts_target_usd - decision.shorts_current_usd| then
            shorts_loop pf.shorts_positions prices
              (decision.shorts_target_usd / (self.shorts_symbols.length : ℚ)) r
              self.shorts_symbols
          else (true, [])).2) := by
  unfold LongShortStrategy.execute_rebalance
  rw [if_neg (not_not_intro hsb)]

theorem btc_branch_filter (decision : RebalanceDecision)
    (prices : List (String × ℚ)) (r : Order → Bool) (sym : String)
    (hbtc : sym ≠ "BTC") :
    ((if 5 < |decision.btc_target_usd - decision.btc_current_usd| then
        (if lookupD prices ("BTC") 0 ≤ 0 then (false, ([] : List Order))
         else
          (r ⟨("BTC"),
              decide (0 < (decision.btc_target_usd - decision.btc_current_usd)
                / lookupD prices ("BTC") 0),
              |(decision.btc_target_usd - decision.btc_current_usd)
                / lookupD prices ("BTC") 0|, lookupD prices ("BTC") 0⟩,
           [⟨("BTC"),
              decide (0 < (decision.btc_target_usd - decision.btc_current_usd)
                / lookupD prices ("BTC") 0),
              |(decision.btc_target_usd - decision.btc_current_usd)
                / lookupD prices ("BTC") 0|, lookupD prices ("BTC") 0⟩]))
      else (true, [])).2.filter (fun o => o.symbol == sym)) = [] := by
  split_ifs <;> simp [Ne.symm hbtc]

/-- C5 counterexample: with `cfgW`/`pfW` the rebalance decision has hedge
target $4 ($2 per symbol) and ZK exposure $0, so the per-symbol
difference for ZK is exactly $2, which is not below $2 — yet no ZK order
is submitted (the code only acts on |diff| > $2), refuting "skips the
symbol exactly when |diff| < $2". -/
theorem c5_counterexample :
    (cfgW.calculate_rebalance_decision pfW).shorts_target_usd
        / (cfgW.shorts_symbols.length : ℚ)
      - |lookupD pfW.shorts_positions ("ZK") 0| * lookupD pricesW ("ZK") 0 = 2
    ∧ ¬ (|(2:ℚ)| < 2)
    ∧ ((cfgW.execute_rebalance (cfgW.calculate_rebalance_decision pfW) pfW pricesW
          (fun _ => true)).2.filter (fun o => o.symbol == "ZK")) = [] := by
  refine ⟨?_, by norm_num, ?_⟩
  · norm_num [cfgW, pfW, pricesW, LongShortStrategy.calculate_rebalance_decision,
      lookupD, dictGet]
  · norm_num [cfgW, pfW, pricesW, LongShortStrategy.calculate_rebalance_decision,
      LongShortStrategy.execute_rebalance, shorts_loop, lookupD, dictGet]
    simp
    norm_num
    decide

/-- C5 (amended): when a decision with `should_rebalance` set is executed,
a hedge symbol receives exactly one market order iff the aggregate hedge
difference exceeds $5 in absolute value, the symbol's price is nonzero,
and its per-symbol difference `diff = shorts_target/n - current_usd`
exceeds $2 in absolute value (it is skipped otherwise, in particular at
|diff| = $2 and whenever the aggregate difference is at most $5); the
order is a sell when diff > 0 and a buy otherwise. -/
theorem c5_hedge_orders_characterized (self : LongShortStrategy)
    (decision : RebalanceDecision) (pf : PortfolioState)
    (prices : List (String × ℚ)) (orderSuccess : Order → Bool) (sym : String)
    (hnd : self.shorts_symbols.Nodup) (hmem : sym ∈ self.shorts_symbols)
    (hbtc : sym ≠ "BTC") (hsb : decision.should_rebalance = true) :
    ((self.execute_rebalance decision pf prices orderSuccess).2.filter
        (fun o => o.symbol == sym)) =
      (if 5 < |decision.shorts_target_usd - decision.shorts_current_usd| then
        (if lookupD prices sym 0 = 0 then []
         else
          if 2 < |decision.shorts_target_usd / (self.shorts_symbols.length : ℚ)
                    - |lookupD pf.shorts_positions sym 0| * lookupD prices sym 0| then
            [⟨sym,
              !decide (0 < decision.shorts_target_usd / (self.shorts_symbols.length : ℚ)
                        - |lookupD pf.shorts_positions sym 0| * lookupD prices sym 0),
              |decision.shorts_target_usd / (self.shorts_symbols.length : ℚ)
                - |lookupD pf.shorts_positions sym 0| * lookupD prices sym 0|
                / lookupD prices sym 0,
              lookupD prices sym 0⟩]
          else [])
       else []) := by
  rw [execute_rebalance_of_should self decision pf prices orderSuccess hsb]
  simp only [List.filter_append]
  rw [btc_branch_filter decision prices orderSuccess sym hbtc, List.nil_append]
  by_cases h5 : 5 < |decision.shorts_target_usd - decision.shorts_current_usd|
  · rw [if_pos h5, if_pos h5]
    exact shorts_loop_filter_mem pf.shorts_positions prices
      (decision.shorts_target_usd / (self.shorts_symbols.length : ℚ))
      orderSuccess sym self.shorts_symbols hmem hnd
  · rw [if_neg h5, if_neg h5]
    rfl

/-- C5 witness for the amended characterization: with the concrete inputs,
STRK (per-symbol difference −$10) receives exactly one buy order of 10
units at price 1. -/
theorem c5_witness :
    ((cfgW.execute_rebalance (cfgW.calculate_rebalance_decision pfW) pfW pricesW
        (fun _ => true)).2.filter (fun o => o.symbol == "STRK"))
      = [⟨("STRK"), true, 10, 1⟩] := by
  have h := c5_hedge_orders_characterized cfgW (cfgW.calculate_rebalance_decision pfW)
    pfW pricesW (fun _ => true) ("STRK") (by decide) (by decide) (by decide)
    (by norm_num [cfgW, pfW, LongShortStrategy.calculate_rebalance_decision])
  rw [h]
  norm_num [cfgW, pfW, pricesW, LongShortStrategy.calculate_rebalance_decision,
    lookupD, dictGet]
  simp
  norm_num

/-- C7: within one execution of a rebalance decision, orders are
independent: the submitted order list does not depend on the per-order
outcomes at all (so one order's failure neither blocks the remaining
submissions nor rolls back an already-submitted order), while the
failure of any submitted order forces the overall result to be false. -/
theorem c7_order_outcome_independence (self : LongShortStrategy)
    (decision : RebalanceDecision) (pf : PortfolioState)
    (prices : List (String × ℚ)) (r1 r2 : Order → Bool) :
    (self.execute_rebalance decision pf prices r1).2
        = (self.execute_rebalance decision pf prices r2).2
    ∧ ∀ o ∈ (self.execute_rebalance decision pf prices r1).2,
        r1 o = false → (self.execute_rebalance decision pf prices r1).1 = false := by
  by_cases hsb : decision.should_rebalance = true
  · constructor
    · rw [execute_rebalance_of_should self decision pf prices r1 hsb,
        execute_rebalance_of_should self decision pf prices r2 hsb]
      by_cases h5 : 5 < |decision.shorts_target_usd - decision.shorts_current_usd|
      · rw [if_pos h5, if_pos h5,
          shorts_loop_snd_indep pf.shorts_positions prices
            (decision.shorts_target_usd / (self.shorts_symbols.length : ℚ)) r1 r2
            self.shorts_symbols]
        simp only [Prod.snd]
        split_ifs <;> rfl
      · rw [if_neg h5, if_neg h5]
        simp only [Prod.snd]
        split_ifs <;> rfl
    · intro o ho hf
      rw [execute_rebalance_of_should self decision pf prices r1 hsb] at ho ⊢
      rw [List.mem_append] at ho
      rcases ho with ho | ho
      · by_cases hA : 5 < |decision.btc_target_usd - decision.btc_current_usd|
        · by_cases hB : lookupD prices ("BTC") 0 ≤ 0
          · rw [if_pos hA, if_pos hB]
            rfl
          · rw [if_pos hA, if_neg hB] at ho ⊢
            simp only [List.mem_singleton] at ho
            subst ho
            rw [hf]
            rfl
        · rw [if_neg hA] at ho
          exact absurd ho (List.not_mem_nil o)
      · by_cases h5 : 5 < |decision.shorts_target_usd - decision.shorts_current_usd|
        · rw [if_pos h5] at ho ⊢
          rw [shorts_loop_mem_false pf.shorts_positions prices
            (decision.shorts_target_usd / (self.shorts_symbols.length : ℚ)) r1
            self.shorts_symbols o ho hf, Bool.and_false]
        · rw [if_neg h5] at ho
          exact absurd ho (List.not_mem_nil o)
  · have hE : ∀ r : Order → Bool,
        self.execute_rebalance decision pf prices r = (true, []) := by
      intro r
      unfold LongShortStrategy.execute_rebalance
      rw [if_pos hsb]
    rw [hE r1, hE r2]
    exact ⟨rfl, by intro o ho; exact absurd ho (List.not_mem_nil o)⟩

/-- C7 witness: at the concrete inputs, with every order failing, the
submitted STRK order makes the overall execution result false. -/
theorem c7_witness :
    (cfgW.execute_rebalance (cfgW.calculate_rebalance_decision pfW) pfW pricesW
        (fun _ => false)).1 = false := by
  refine (c7_order_outcome_independence cfgW (cfgW.calculate_rebalance_decision pfW)
      pfW pricesW (fun _ => false) (fun _ => true)).2
    ⟨("STRK"), true, 10, 1⟩ ?_ rfl
  norm_num [cfgW, pfW, pricesW, LongShortStrategy.calculate_rebalance_decision,
    LongShortStrategy.execute_rebalance, shorts_loop, lookupD, dictGet]
  simp
  norm_num

/-- C2 counterexample: the snapshot `c2savedZeroCore` has nonzero total
value (hedge 300) but zero core value, and `_restore_positions` then
takes the create-initial-positions path, opening a BTC position with
target 600 instead of the snapshot-proportional core target 0 (and
opening STRK, which was not in the snapshot). -/
theorem c2_counterexample :
    ¬ ProportionalRestoreTargets c2savedZeroCore
        ((restore_positions c2savedZeroCore 2 3 (fun _ _ => true)).2) := by
  intro h
  have hmem : (⟨("BTC"), 600, 2, true⟩ : OpenIntent)
      ∈ (restore_positions c2savedZeroCore 2 3 (fun _ _ => true)).2 := by
    norm_num [c2savedZeroCore, restore_positions, create_initial_positions]
  have hB := (h _ hmem).1 rfl
  norm_num [c2savedZeroCore] at hB

/-- C2 (amended): for every snapshot with a nonempty position map and
nonzero core value, the reopen step computes core and hedge targets in
the snapshot's value proportions applied to the post-reserve tradable
NAV (the two targets sum to it), opens each side only when its target
exceeds $5, and splits the hedge target evenly across the snapshot's
non-core symbols; a snapshot with zero core value is instead rebuilt
through the initial-position path. -/
theorem c2_restore_proportional (saved : SavedState) (bl sl : ℤ)
    (f : String → ℚ → Bool)
    (hpos : saved.positions ≠ []) (hbtc : saved.total_btc_value ≠ 0)
    (htot : saved.total_btc_value + saved.total_shorts_value ≠ 0) :
    (restore_positions saved bl sl f).2 =
      (if 5 < saved.nav * (1 - 5/100)
            * (saved.total_btc_value
                / (saved.total_btc_value + saved.total_shorts_value)) then
         [⟨("BTC"), saved.nav * (1 - 5/100)
            * (saved.total_btc_value
                / (saved.total_btc_value + saved.total_shorts_value)), bl, true⟩]
       else []) ++
      (if (saved.positions.filter (fun p => p.1 ≠ "BTC")) ≠ []
          ∧ 5 < saved.nav * (1 - 5/100)
              * (saved.total_shorts_value
                  / (saved.total_btc_value + saved.total_shorts_value)) then
         (saved.positions.filter (fun p => p.1 ≠ "BTC")).map (fun p =>
           ⟨p.1,
            saved.nav * (1 - 5/100)
              * (saved.total_shorts_value
                  / (saved.total_btc_value + saved.total_shorts_value))
              / ((saved.positions.filter (fun p => p.1 ≠ "BTC")).length : ℚ),
            sl, false⟩)
       else [])
    ∧ saved.nav * (1 - 5/100)
        * (saved.total_btc_value / (saved.total_btc_value + saved.total_shorts_value))
      + saved.nav * (1 - 5/100)
        * (saved.total_shorts_value / (saved.total_btc_value + saved.total_shorts_value))
      = saved.nav * (1 - 5/100) := by
  constructor
  · have hcond1 : ¬ (saved.positions = [] ∨ saved.total_btc_value = 0) :=
      not_or.mpr ⟨hpos, hbtc⟩
    simp only [restore_positions, if_neg hcond1, if_neg htot]
    split_ifs <;> rfl
  · field_simp
    ring

/-- C2 witness: the spec's example — snapshot core 600, hedge 300 (only
ZK open), tradable NAV 450 — restores core target 300 and ZK target 150,
the snapshot's 2:1 proportion, regardless of the configured ratio. -/
theorem c2_witness :
    (restore_positions c2saved 2 3 (fun _ _ => true)).2
      = [⟨("BTC"), 300, 2, true⟩, ⟨("ZK"), 150, 3, false⟩] := by
  have h := c2_restore_proportional c2saved 2 3 (fun _ _ => true)
    (by simp [c2saved]) (by norm_num [c2saved]) (by norm_num [c2saved])
  rw [h.1]
  norm_num [c2saved]
  simp

/-- C6 counterexample: a flat snapshot restored under the configured hedge
list `["ETH"]` opens hedge positions on the hardcoded ZK and STRK, and no
ETH position at all — the reopen does not split the hedge share among
the configured hedge symbols. -/
theorem c6_counterexample :
    (force_leverage_compliance flatVenue 2 3 (["ETH"])).2
      = [VenueAction.setLeverage ("BTC") 2, VenueAction.setLeverage ("ETH") 3,
         VenueAction.openPosition ("BTC") (3800/3) 2 true,
         VenueAction.openPosition ("ZK") 475 3 false,
         VenueAction.openPosition ("STRK") 475 3 false]
    ∧ ((force_leverage_compliance flatVenue 2 3 (["ETH"])).2.any
        (opensSymbol ("ETH"))) = false
    ∧ ((force_leverage_compliance flatVenue 2 3 (["ETH"])).2.any
        (opensSymbol ("ZK"))) = true := by
  have hcheck : check_leverage_compliance flatVenue 2 3 (["ETH"])
      = [(("BTC"), false), (("ETH"), false)] := by
    norm_num [check_leverage_compliance, get_current_leverages, flatVenue,
      lookupD, dictGet, upsert, List.foldl]
    decide
  have htrace : (force_leverage_compliance flatVenue 2 3 (["ETH"])).2
      = [VenueAction.setLeverage ("BTC") 2, VenueAction.setLeverage ("ETH") 3,
         VenueAction.openPosition ("BTC") (3800/3) 2 true,
         VenueAction.openPosition ("ZK") 475 3 false,
         VenueAction.openPosition ("STRK") 475 3 false] := by
    norm_num [force_leverage_compliance, hcheck,
      get_current_leverages, close_all_positions, set_all_leverages,
      restore_positions, create_initial_positions, flatVenue, flatSaved,
      lookupD, dictGet, upsert]
    rw [hcheck]
    simp
  refine ⟨htrace, ?_, ?_⟩ <;> rw [htrace] <;> rfl

/-- C6 (amended): a snapshot that held no value (empty position map, or
zero core and hedge value) is rebuilt by `_create_initial_positions`
from the post-reserve tradable NAV with the fixed margin split — core
margin 2/3, hedge margin 1/3, the hedge share divided evenly between the
hardcoded default hedge symbols ZK and STRK (each side opened only above
the $5 margin minimum, position value = margin × leverage); the
configured hedge list is not consulted. -/
theorem c6_flat_snapshot_initial (saved : SavedState) (bl sl : ℤ)
    (f : String → ℚ → Bool)
    (h : saved.positions = []
      ∨ (saved.total_btc_value = 0 ∧ saved.total_shorts_value = 0)) :
    restore_positions saved bl sl f
      = create_initial_positions (saved.nav * (1 - 5/100)) bl sl
          (["ZK", "STRK"]) f
    ∧ (create_initial_positions (saved.nav * (1 - 5/100)) bl sl
          (["ZK", "STRK"]) f).2
      = (if 5 < saved.nav * (1 - 5/100) * (2/3) then
           [⟨("BTC"), saved.nav * (1 - 5/100) * (2/3) * (bl:ℚ), bl, true⟩]
         else [])
        ++ (if 5 < saved.nav * (1 - 5/100) * (1/3) then
             [⟨("ZK"), saved.nav * (1 - 5/100) * (1/3) / 2 * (sl:ℚ), sl, false⟩,
              ⟨("STRK"), saved.nav * (1 - 5/100) * (1/3) / 2 * (sl:ℚ), sl, false⟩]
           else []) := by
  constructor
  · rcases h with h | ⟨h1, _⟩
    · unfold restore_positions
      rw [if_pos (Or.inl h)]
    · unfold restore_positions
      rw [if_pos (Or.inr h1)]
  · simp only [create_initial_positions]
    norm_num
    split_ifs <;> simp

/-- C6 witness: the flat snapshot (nav 1000, tradable 950) is rebuilt by
`_create_initial_positions` on the hardcoded ZK/STRK hedge list. -/
theorem c6_witness :
    restore_positions flatSaved 2 3 (fun _ _ => true)
      = create_initial_positions 950 2 3 (["ZK", "STRK"]) (fun _ _ => true) := by
  have h := (c6_flat_snapshot_initial flatSaved 2 3 (fun _ _ => true) (Or.inl rfl)).1
  have h950 : flatSaved.nav * (1 - 5/100) = 950 := by norm_num [flatSaved]
  rw [h950] at h
  exact h

/-- C3: in a run of `force_leverage_compliance` where the compliance check
reports a non-compliant symbol, if building the portfolio snapshot fails
(the saved state is empty), the run returns failure having issued no
destructive request at all — no close, no leverage update, no reopen. -/
theorem c3_snapshot_failure_aborts (v : Venue) (required_btc required_shorts : ℤ)
    (shorts : List String)
    (hsave : v.saved_state = none)
    (hnc : ((check_leverage_compliance v required_btc required_shorts shorts).filter
              (fun p => p.2 = false)).map Prod.fst ≠ []) :
    force_leverage_compliance v required_btc required_shorts shorts = (false, []) := by
  simp only [force_leverage_compliance, if_neg hnc, hsave]

/-- C3 witness: a venue with open positions whose snapshot read fails and
whose leverages are all 1 against required 2/3 yields `(false, [])`. -/
theorem c3_witness :
    force_leverage_compliance c3venue 2 3 (["ZK"]) = (false, []) := by
  refine c3_snapshot_failure_aborts c3venue 2 3 (["ZK"]) rfl ?_
  have hcheck : check_leverage_compliance c3venue 2 3 (["ZK"])
      = [(("BTC"), false), (("ZK"), false)] := by
    norm_num [check_leverage_compliance, get_current_leverages, c3venue,
      lookupD, dictGet, upsert, List.foldl]
    decide
  rw [hcheck]
  simp

theorem dictGet_not_mem {α : Type} (l : List (String × α)) (k : String)
    (h : k ∉ l.map Prod.fst) : dictGet l k = none := by
  induction l with
  | nil => rfl
  | cons p rest ih =>
    have hk : ¬ (p.1 == k) = true := by
      simp only [beq_iff_eq]
      intro hc
      exact h (by simp [hc])
    simp only [dictGet, if_neg hk]
    exact ih (fun hc => h (List.mem_cons_of_mem _ hc))

theorem lookupD_not_mem (l : List (String × ℚ)) (k : String) (d : ℚ)
    (h : k ∉ l.map Prod.fst) : lookupD l k d = d := by
  unfold lookupD
  rw [dictGet_not_mem l k h]
  rfl

theorem dictGet_upsert_self (l : List (String × Bool)) (k : String) (v : Bool) :
    dictGet (upsert l k v) k = some v := by
  induction l with
  | nil => simp [upsert, dictGet]
  | cons p rest ih =>
    by_cases hpk : p.1 = k
    · simp [upsert, hpk, dictGet]
    · simp only [upsert, if_neg hpk, dictGet]
      rw [if_neg (by simp [hpk])]
      exact ih

theorem dictGet_upsert_ne (l : List (String × Bool)) (k k' : String) (v : Bool)
    (h : k' ≠ k) : dictGet (upsert l k v) k' = dictGet l k' := by
  induction l with
  | nil => simp [upsert, dictGet, Ne.symm h]
  | cons p rest ih =>
    by_cases hpk : p.1 = k
    · simp only [upsert, if_pos hpk, dictGet]
      rw [if_neg (by simp [Ne.symm h]), if_neg (by rw [hpk]; simp [Ne.symm h])]
    · simp only [upsert, if_neg hpk, dictGet]
      by_cases hpk' : (p.1 == k') = true
      · rw [if_pos hpk', if_pos hpk']
      · rw [if_neg hpk', if_neg hpk']
        exact ih

theorem foldl_upsert_not_mem (val : String → Bool) (syms : List String)
    (acc : List (String × Bool)) (k : String) (h : k ∉ syms) :
    dictGet (syms.foldl (fun a s => upsert a s (val s)) acc) k = dictGet acc k := by
  induction syms generalizing acc with
  | nil => rfl
  | cons s rest ih =>
    have hs : k ≠ s := fun hc => h (hc ▸ List.mem_cons_self s rest)
    have hrest : k ∉ rest := fun hc => h (List.mem_cons_of_mem s hc)
    simp only [List.foldl_cons]
    rw [ih (upsert acc s (val s)) hrest]
    exact dictGet_upsert_ne acc s k (val s) hs

theorem foldl_upsert_mem (val : String → Bool) (syms : List String)
    (acc : List (String × Bool)) (k : String) (h : k ∈ syms) (hnd : syms.Nodup) :
    dictGet (syms.foldl (fun a s => upsert a s (val s)) acc) k = some (val k) := by
  induction syms generalizing acc with
  | nil => simp at h
  | cons s rest ih =>
    simp only [List.foldl_cons]
    rcases List.mem_cons.mp h with h | h
    · subst h
      rw [foldl_upsert_not_mem val rest (upsert acc k (val k)) k
        (List.nodup_cons.mp hnd).1]
      exact dictGet_upsert_self acc k (val k)
    · exact ih (upsert acc s (val s)) h (List.nodup_cons.mp hnd).2

theorem mem_false_filter_ne (l : List (String × Bool)) (k : String)
    (h : dictGet l k = some false) :
    (l.filter (fun p => p.2 = false)).map Prod.fst ≠ [] := by
  induction l with
  | nil => simp [dictGet] at h
  | cons p rest ih =>
    simp only [dictGet] at h
    by_cases hpk : (p.1 == k) = true
    · rw [if_pos hpk] at h
      have hp2 : p.2 = false := by
        injection h
      simp only [List.filter_cons, hp2]
      simp
    · rw [if_neg hpk] at h
      have := ih h
      simp only [List.filter_cons]
      split_ifs with hf
      · simp
      · exact this

theorem force_of_noncompliant_some (v : Venue) (required_btc required_shorts : ℤ)
    (shorts : List String) (st : SavedState)
    (hnc : ((check_leverage_compliance v required_btc required_shorts shorts).filter
              (fun p => p.2 = false)).map Prod.fst ≠ [])
    (hs : v.saved_state = some st) :
    force_leverage_compliance v required_btc required_shorts shorts =
      (if ¬ (close_all_positions v).1 then (false, (close_all_positions v).2)
       else if ¬ (set_all_leverages v required_btc required_shorts shorts).1 then
         (false, (close_all_positions v).2
            ++ (set_all_leverages v required_btc required_shorts shorts).2)
       else ((restore_positions st required_btc required_shorts v.open_result).1,
         (close_all_positions v).2
           ++ (set_all_leverages v required_btc required_shorts shorts).2
           ++ (restore_positions st required_btc required_shorts v.open_result).2.map
                (fun i => VenueAction.openPosition i.symbol i.target_value
                  i.leverage i.is_buy))) := by
  unfold force_leverage_compliance
  rw [if_neg hnc, hs]

theorem force_ne_true_nil (v : Venue) (required_btc required_shorts : ℤ)
    (shorts : List String)
    (hnc : ((check_leverage_compliance v required_btc required_shorts shorts).filter
              (fun p => p.2 = false)).map Prod.fst ≠ []) :
    force_leverage_compliance v required_btc required_shorts shorts ≠ (true, []) := by
  cases hs : v.saved_state with
  | none =>
    simp only [force_leverage_compliance, if_neg hnc, hs]
    simp
  | some st =>
    rw [force_of_noncompliant_some v required_btc required_shorts shorts st hnc hs]
    by_cases hclose : (close_all_positions v).1
    · rw [if_neg (by simp [hclose])]
      by_cases hlev : (set_all_leverages v required_btc required_shorts shorts).1
      · rw [if_neg (by simp [hlev])]
        intro heq
        have h2 := congrArg Prod.snd heq
        simp only [set_all_leverages] at h2
        simp at h2
      · rw [if_pos (by simp [hlev])]
        intro heq
        exact Bool.false_ne_true (congrArg Prod.fst heq)
    · rw [if_pos (by simp [hclose])]
      intro heq
      exact Bool.false_ne_true (congrArg Prod.fst heq)

/-- C10: a tracked symbol absent from the venue's reported leverage
mapping — in particular every symbol when the read fails or the account
is flat, the mapping then being empty — is treated as having leverage
1.0, so its compliance entry is exactly `|1 - required| < 0.01`; a flat
account with required core leverage above 1 therefore has a
non-compliant entry, and `force_leverage_compliance` does not take the
already-compliant exit (it enters the close/set-leverage/reopen
protocol). -/
theorem c10_missing_symbols_default (v : Venue) (required_btc required_shorts : ℤ)
    (shorts : List String) :
    (∀ symbol ∈ shorts, shorts.Nodup →
        symbol ∉ (get_current_leverages v).map Prod.fst →
        dictGet (check_leverage_compliance v required_btc required_shorts shorts) symbol
          = some (decide (|1 - (required_shorts : ℚ)| < 1/100)))
    ∧ (("BTC") ∉ shorts → ("BTC") ∉ (get_current_leverages v).map Prod.fst →
        dictGet (check_leverage_compliance v required_btc required_shorts shorts) ("BTC")
          = some (decide (|1 - (required_btc : ℚ)| < 1/100)))
    ∧ (get_current_leverages v = [] → ("BTC") ∉ shorts → 1 < required_btc →
        ((check_leverage_compliance v required_btc required_shorts shorts).filter
            (fun p => p.2 = false)).map Prod.fst ≠ []
        ∧ force_leverage_compliance v required_btc required_shorts shorts
            ≠ (true, [])) := by
  have hbase : ∀ hb : ("BTC") ∉ shorts,
      dictGet (check_leverage_compliance v required_btc required_shorts shorts) ("BTC")
        = some (decide (|lookupD (get_current_leverages v) ("BTC") 1
            - (required_btc : ℚ)| < 1/100)) := by
    intro hb
    unfold check_leverage_compliance
    rw [foldl_upsert_not_mem
      (fun symbol => decide (|lookupD (get_current_leverages v) symbol 1
        - (required_shorts : ℚ)| < 1/100)) shorts _ ("BTC") hb]
    simp [dictGet]
  refine ⟨?_, ?_, ?_⟩
  · intro symbol hmem hnd habs
    unfold check_leverage_compliance
    rw [foldl_upsert_mem
      (fun symbol => decide (|lookupD (get_current_leverages v) symbol 1
        - (required_shorts : ℚ)| < 1/100)) shorts _ symbol hmem hnd]
    rw [lookupD_not_mem (get_current_leverages v) symbol 1 habs]
  · intro hb habs
    rw [hbase hb, lookupD_not_mem (get_current_leverages v) ("BTC") 1 habs]
  · intro hflat hb hrb
    have hrbq : (2:ℚ) ≤ (required_btc : ℚ) := by
      exact_mod_cast hrb
    have hfalse : decide (|1 - (required_btc : ℚ)| < 1/100) = false := by
      rw [decide_eq_false_iff_not, not_lt]
      rw [abs_sub_comm, abs_of_nonneg (by linarith)]
      linarith
    have hBTC : dictGet (check_leverage_compliance v required_btc required_shorts shorts)
        ("BTC") = some false := by
      rw [hbase hb, hflat]
      unfold lookupD
      rw [dictGet]
      exact congrArg some hfalse
    have h1 := mem_false_filter_ne _ ("BTC") hBTC
    exact ⟨h1, force_ne_true_nil v required_btc required_shorts shorts h1⟩

/-- C10 witness: on the flat venue with required leverages 2 and 3, the ZK
entry records `|1 - 3| < 0.01` (false), and the protocol is entered. -/
theorem c10_witness :
    dictGet (check_leverage_compliance flatVenue 2 3 (["ZK"])) ("ZK")
        = some (decide (|1 - (3:ℚ)| < 1/100))
    ∧ force_leverage_compliance flatVenue 2 3 (["ZK"]) ≠ (true, []) := by
  have h := c10_missing_symbols_default flatVenue 2 3 (["ZK"])
  refine ⟨h.1 ("ZK") (by simp) (by simp) (by simp [get_current_leverages, flatVenue]), ?_⟩
  exact (h.2.2 (by simp [get_current_leverages, flatVenue]) (by simp) (by norm_num)).2

theorem rhe_intCast (n : ℤ) : rhe (n : ℚ) = n := by
  unfold rhe
  rw [Int.fract_intCast, Int.floor_intCast]
  norm_num

theorem abs_sub_rhe_le (q : ℚ) : |q - (rhe q : ℚ)| ≤ 1/2 := by
  have h0 := Int.fract_nonneg q
  have h1 := Int.fract_lt_one q
  have hq : q - (⌊q⌋ : ℚ) = Int.fract q := Int.self_sub_floor q
  unfold rhe
  split_ifs with hlt hgt hev
  · rw [hq, abs_le]
    constructor <;> linarith
  · have hq1 : q - ((⌊q⌋ + 1 : ℤ) : ℚ) = Int.fract q - 1 := by
      push_cast
      linarith
    rw [hq1, abs_le]
    constructor <;> linarith
  · rw [hq, abs_le]
    constructor <;> linarith
  · have hq1 : q - ((⌊q⌋ + 1 : ℤ) : ℚ) = Int.fract q - 1 := by
      push_cast
      linarith
    rw [hq1, abs_le]
    constructor <;> linarith

theorem rhe_eq_of_abs_lt {q : ℚ} {n : ℤ} (h : |q - (n : ℚ)| < 1/2) : rhe q = n := by
  rw [abs_lt] at h
  obtain ⟨h1, h2⟩ := h
  rcases le_or_lt (n : ℚ) q with hq | hq
  · have hfl : ⌊q⌋ = n := by
      rw [Int.floor_eq_iff]
      constructor
      · exact hq
      · push_cast
        linarith
    have hfr : Int.fract q < 1/2 := by
      have hself := Int.self_sub_floor q
      rw [hfl] at hself
      push_cast at hself
      linarith
    unfold rhe
    rw [if_pos hfr, hfl]
  · have hfl : ⌊q⌋ = n - 1 := by
      rw [Int.floor_eq_iff]
      push_cast
      constructor <;> linarith
    have hfr : 1/2 < Int.fract q := by
      have hself := Int.self_sub_floor q
      rw [hfl] at hself
      push_cast at hself
      linarith
    unfold rhe
    rw [if_neg (not_lt.mpr hfr.le), if_pos hfr, hfl]
    omega

theorem roundDec_rhe_idem (step : ℚ) (hs : step ≠ 0) (d : ℤ) (s : ℚ) :
    roundDec ((rhe ((roundDec ((rhe (s / step) : ℚ) * step) d) / step) : ℚ) * step) d
      = roundDec ((rhe (s / step) : ℚ) * step) d := by
  simp only [roundDec]
  set G : ℚ := (10:ℚ)^d with hGdef
  have hGpos : 0 < G := by rw [hGdef]; positivity
  have hG0 : G ≠ 0 := ne_of_gt hGpos
  have hstep0 : 0 < |step| := abs_pos.mpr hs
  generalize rhe (s / step) = m
  generalize hK : rhe ((m : ℚ) * step * G) = K
  suffices h : rhe ((rhe ((K : ℚ) / G / step) : ℚ) * step * G) = K by
    rw [h]
  have h1 : |(m : ℚ) * step * G - (K : ℚ)| ≤ 1/2 := by
    have := abs_sub_rhe_le ((m : ℚ) * step * G)
    rwa [hK] at this
  rcases lt_trichotomy (|step| * G) 1 with hlt | heq | hgt
  · have h2 : |(K : ℚ) / G / step - (rhe ((K : ℚ) / G / step) : ℚ)| ≤ 1/2 :=
      abs_sub_rhe_le _
    apply rhe_eq_of_abs_lt
    have hcalc : (rhe ((K : ℚ) / G / step) : ℚ) * step * G - (K : ℚ)
        = -(((K : ℚ) / G / step - (rhe ((K : ℚ) / G / step) : ℚ)) * step * G) := by
      field_simp
      ring
    rw [hcalc, abs_neg, abs_mul, abs_mul, abs_of_pos hGpos]
    calc |(K : ℚ) / G / step - (rhe ((K : ℚ) / G / step) : ℚ)| * |step| * G
        ≤ 1/2 * (|step| * G) := by
          rw [mul_assoc]
          exact mul_le_mul_of_nonneg_right h2 (by positivity)
      _ < 1/2 := by linarith
  · have habs : |step| = 1 / G := by
      rw [eq_div_iff hG0]
      exact heq
    rcases (abs_eq (by positivity : (0:ℚ) ≤ 1 / G)).mp habs with hstep | hstep
    · have hss : (K : ℚ) / G / step = ((K : ℤ) : ℚ) := by
        rw [hstep]
        field_simp
      rw [hss, rhe_intCast]
      have hmul : (K : ℚ) * step * G = ((K : ℤ) : ℚ) := by
        rw [hstep]
        field_simp
      rw [hmul, rhe_intCast]
    · have hss : (K : ℚ) / G / step = (((-K : ℤ)) : ℚ) := by
        rw [hstep]
        push_cast
        field_simp
      rw [hss, rhe_intCast]
      have hmul : ((-K : ℤ) : ℚ) * step * G = ((K : ℤ) : ℚ) := by
        rw [hstep]
        push_cast
        field_simp
      rw [hmul, rhe_intCast]
  · have habs : |(K : ℚ) / G / step - (m : ℚ)| < 1/2 := by
      have hX : (K : ℚ) / G / step - (m : ℚ)
          = ((K : ℚ) - (m : ℚ) * step * G) / (G * step) := by
        field_simp
        ring
      rw [hX, abs_div, abs_mul, abs_of_pos hGpos]
      rw [div_lt_iff₀ (by positivity)]
      have hcomm : |(K : ℚ) - (m : ℚ) * step * G| = |(m : ℚ) * step * G - (K : ℚ)| :=
        abs_sub_comm _ _
      have hprod : 1 < G * |step| := by
        rw [mul_comm]
        exact hgt
      nlinarith [h1, hcomm]
    rw [rhe_eq_of_abs_lt habs]
    exact hK

/-- C8: for a symbol with present asset metadata (and a nonzero step, the
degenerate zero step raising inside the handler instead), the requested
size is rounded to the nearest multiple of the minimum step (ties to
even, as Python's `round`) and then to the symbol's decimal precision,
and the validation succeeds exactly when the rounded size reaches the
minimum order size, returning the rounded size either way. -/
theorem c8_validate_rounding (asset_meta : List (String × AssetParams))
    (symbol : String) (size : ℚ) (asset_params : AssetParams)
    (hp : dictGet asset_meta symbol = some asset_params)
    (hs : szStepOf asset_params ≠ 0) :
    (validate_order_size asset_meta symbol size).2.1
        = roundDec ((rhe (size / szStepOf asset_params) : ℚ) * szStepOf asset_params)
            (szDecimalsOf asset_params)
    ∧ ((validate_order_size asset_meta symbol size).1 = true
        ↔ minSzOf asset_params
            ≤ roundDec ((rhe (size / szStepOf asset_params) : ℚ) * szStepOf asset_params)
                (szDecimalsOf asset_params)) := by
  simp only [validate_order_size, hp]
  rw [if_neg hs]
  split_ifs with hmin
  · exact ⟨rfl, by simp [not_le.mpr hmin]⟩
  · exact ⟨rfl, by simp [not_lt.mp hmin]⟩

/-- C8 witness: requesting 1/700 of BTC with step 0.001, precision 3 and
minimum 0.001 is rounded to 0.001 and accepted. -/
theorem c8_witness :
    (validate_order_size metaW ("BTC") (1/700)).2.1
        = roundDec ((rhe ((1/700) / szStepOf ⟨some (1/1000), some (1/1000), some 3⟩) : ℚ)
            * szStepOf ⟨some (1/1000), some (1/1000), some 3⟩)
            (szDecimalsOf ⟨some (1/1000), some (1/1000), some 3⟩)
    ∧ ((validate_order_size metaW ("BTC") (1/700)).1 = true
        ↔ minSzOf ⟨some (1/1000), some (1/1000), some 3⟩
            ≤ roundDec ((rhe ((1/700) / szStepOf ⟨some (1/1000), some (1/1000), some 3⟩) : ℚ)
                * szStepOf ⟨some (1/1000), some (1/1000), some 3⟩)
                (szDecimalsOf ⟨some (1/1000), some (1/1000), some 3⟩)) :=
  c8_validate_rounding metaW ("BTC") (1/700) ⟨some (1/1000), some (1/1000), some 3⟩
    rfl (by norm_num [szStepOf, szDecimalsOf])

/-- C9: order-size validation is idempotent — if validation of `s` accepts
and returns `s'`, then validating `s'` accepts and returns `s'` again. -/
theorem c9_validate_idempotent (asset_meta : List (String × AssetParams))
    (symbol : String) (s s' : ℚ) (msg : String)
    (h : validate_order_size asset_meta symbol s = (true, s', msg)) :
    validate_order_size asset_meta symbol s' = (true, s', "") := by
  rcases hl : dictGet asset_meta symbol with _ | asset_params
  · rw [validate_order_size, hl] at h
    simp at h
  · simp only [validate_order_size, hl] at h ⊢
    by_cases hs0 : szStepOf asset_params = 0
    · rw [if_pos hs0] at h
      simp at h
    · rw [if_neg hs0] at h ⊢
      by_cases hmin : roundDec ((rhe (s / szStepOf asset_params) : ℚ)
          * szStepOf asset_params) (szDecimalsOf asset_params) < minSzOf asset_params
      · rw [if_pos hmin] at h
        simp at h
      · rw [if_neg hmin] at h
        have hr : roundDec ((rhe (s / szStepOf asset_params) : ℚ)
            * szStepOf asset_params) (szDecimalsOf asset_params) = s' := by
          have hcomp := congrArg (fun t => t.2.1) h
          simpa using hcomp
        have hid := roundDec_rhe_idem (szStepOf asset_params) hs0
          (szDecimalsOf asset_params) s
        rw [hr] at hid
        rw [hid, if_neg (hr ▸ hmin)]

/-- C9 witness: 1/700 of BTC validates to 0.001, and validating 0.001
returns 0.001 unchanged. -/
theorem c9_witness :
    validate_order_size metaW ("BTC") (1/1000) = (true, 1/1000, "") := by
  apply c9_validate_idempotent metaW ("BTC") (1/700) (1/1000) ("")
  norm_num [validate_order_size, metaW, dictGet, szStepOf, szDecimalsOf, minSzOf,
    roundDec, rhe, Int.fract]
